import Mathlib

/-!
Shallow embedding of the chain event subscription engine from the
ton-org/docs-examples repository (guidebook/payment-processing and
guidebook/toncoin-processing), together with proofs about its behavior.

Account mode: `AccountSubscription.ts` (class implementation) and
`createAccountSubscription` in `block-subscription.ts` (functional
implementation).  Chain mode: `BlockSubscription.ts` and
`createBlockSubscription` (identical logic).  Deposit classification:
`parseComment` in `deposits.ts` and `invoices.ts`.

External collaborators (the TON client query API) are modelled as pure
functions over a canonical newest-first account history, and as a record of
query results for chain mode; network failures are modelled by an
availability function indexed by the attempt number of each call.
-/

namespace SubEngine

/-- A transaction as the engine sees it: logical time and content hash
(hashes are base64 strings in the source; only equality on them is ever
used, so they are modelled as naturals). -/
structure Tx where
  lt : Nat
  hash : Nat
  deriving DecidableEq, Repr

/-- The account-mode resume cursor: the pair (lastProcessedLt, lastProcessedHash). -/
structure Cur where
  lt : Nat
  hash : Nat
  deriving DecidableEq, Repr

/-- The composite identity of a transaction used by the cursor. -/
def txId (t : Tx) : Cur := ⟨t.lt, t.hash⟩

/-- `AccountSubscription.isAlreadyProcessed`: returns false when no cursor is
stored, otherwise an exact equality test on both lt and hash. -/
def isAlreadyProcessed (cursor : Option Cur) (t : Tx) : Bool :=
  match cursor with
  | none => false
  | some c => decide (t.lt = c.lt) && decide (t.hash = c.hash)

/-- The suffix of the newest-first history strictly older than the offset
transaction: the query port drops everything down to and including the
transaction identified by the offset. -/
def afterOffset (hist : List Tx) : Option Cur → List Tx
  | none => hist
  | some c => ((hist.dropWhile fun t => decide (txId t ≠ c)).drop 1)

/-- Model of `client.getTransactions(address, {limit, lt, hash})`: up to
`limit` transactions, newest first, strictly older than the offset. -/
def getTransactions (hist : List Tx) (limit : Nat) (offset : Option Cur) : List Tx :=
  (afterOffset hist offset).take limit

/-- Availability of the query endpoint: `avail offset attempt` tells whether
the attempt numbered `attempt` of fetching the page at `offset` succeeds. -/
def Avail : Type := Option Cur → Nat → Bool

/-- The always-available network. -/
def availOk : Avail := fun _ _ => true

/-- `AccountSubscription.fetchNewTransactions` (class implementation): fetch a
page (retrying up to 10 attempts on failure, returning `[]` after
exhaustion), collect transactions until one equals the resume cursor, and
if a full page had no cursor match recurse for the next older page.  The
`fuel` argument bounds the recursion depth of the embedding; every theorem
supplies enough fuel for the history at hand. -/
def fetchNewTransactions (hist : List Tx) (limit : Nat) (avail : Avail)
    (cursor : Option Cur) : Option Cur → Nat → Nat → List Tx
  | _, _, 0 => []
  | offset, retryCount, fuel + 1 =>
    if avail offset retryCount then
      let transactions := getTransactions hist limit offset
      if transactions.isEmpty then []
      else
        let newTransactions := transactions.takeWhile fun t => !isAlreadyProcessed cursor t
        if transactions.any (isAlreadyProcessed cursor) then newTransactions
        else if transactions.length = limit then
          match transactions.getLast? with
          | some lastTx =>
            newTransactions ++ fetchNewTransactions hist limit avail cursor (some (txId lastTx)) 0 fuel
          | none => newTransactions
        else newTransactions
    else
      if retryCount + 1 < 10 then
        fetchNewTransactions hist limit avail cursor offset (retryCount + 1) fuel
      else []

/-- Retry delay of the class implementation: `wait(retryCount * 1000)`. -/
def retryDelayClass (retryCount : Nat) : Nat := retryCount * 1000

/-- Retry delay of the functional implementation:
`min(1000 * 2 ** (attemptNumber - 1), 10000)`. -/
def retryDelayFunc (attemptNumber : Nat) : Nat := min (1000 * 2 ^ (attemptNumber - 1)) 10000

/-- `createAccountSubscription.fetchNewTransactions` (functional
implementation): identical page logic, but at most 3 attempts per page,
numbered from 1. -/
def fetchNewTransactionsF (hist : List Tx) (limit : Nat) (avail : Avail)
    (cursor : Option Cur) : Option Cur → Nat → Nat → List Tx
  | _, _, 0 => []
  | offset, attemptNumber, fuel + 1 =>
    if avail offset attemptNumber then
      let transactions := getTransactions hist limit offset
      if transactions.isEmpty then []
      else
        let newTransactions := transactions.takeWhile fun t => !isAlreadyProcessed cursor t
        if transactions.any (isAlreadyProcessed cursor) then newTransactions
        else if transactions.length = limit then
          match transactions.getLast? with
          | some lastTx =>
            newTransactions ++ fetchNewTransactionsF hist limit avail cursor (some (txId lastTx)) 1 fuel
          | none => newTransactions
        else newTransactions
    else
      if attemptNumber < 3 then
        fetchNewTransactionsF hist limit avail cursor offset (attemptNumber + 1) fuel
      else []

/-- Fuel that is always sufficient for one tick over `hist`: at most
`hist.length + 1` page fetches, each costing at most 10 attempts. -/
def fetchFuel (hist : List Tx) : Nat := 10 * hist.length + 10

/-- Mutable state of an account subscriber: resume cursor plus the
re-entrancy flag. -/
structure AccState where
  cursor : Option Cur
  isProcessing : Bool
  deriving DecidableEq, Repr

/-- The delivery loop of the class implementation's tick: invoke the callback
on each transaction in order; a callback failure (modelled by `cb t = false`)
aborts the loop.  Returns the delivered prefix and whether all succeeded. -/
def deliverAll (cb : Tx → Bool) : List Tx → List Tx × Bool
  | [] => ([], true)
  | t :: rest =>
    if cb t then
      let r := deliverAll cb rest
      (t :: r.1, r.2)
    else ([], false)

/-- One tick of `AccountSubscription.start` (class implementation): guarded by
`isProcessing`; fetches new transactions, delivers them oldest-first, and
only when the whole batch succeeded updates the cursor once, to the newest
transaction of the batch; any error is caught and `isProcessing` is reset. -/
def accountTick (hist : List Tx) (limit : Nat) (avail : Avail) (cb : Tx → Bool)
    (st : AccState) : AccState × List Tx :=
  if st.isProcessing then (st, [])
  else
    let newTransactions := fetchNewTransactions hist limit avail st.cursor none 0 (fetchFuel hist)
    if newTransactions.isEmpty then ({ cursor := st.cursor, isProcessing := false }, [])
    else
      let ordered := newTransactions.reverse
      let r := deliverAll cb ordered
      if r.2 then
        match newTransactions.head? with
        | some latest => ({ cursor := some (txId latest), isProcessing := false }, r.1)
        | none => ({ cursor := st.cursor, isProcessing := false }, r.1)
      else ({ cursor := st.cursor, isProcessing := false }, r.1)

/-- The delivery loop of the functional implementation's tick: after each
successful callback the cursor is advanced to that transaction's id; a
failure leaves the cursor at the last delivered transaction. -/
def deliverFunc (cb : Tx → Bool) : List Tx → Option Cur → Option Cur × List Tx × Bool
  | [], cur => (cur, [], true)
  | t :: rest, cur =>
    if cb t then
      let r := deliverFunc cb rest (some (txId t))
      (r.1, t :: r.2.1, r.2.2)
    else (cur, [], false)

/-- One tick of `createAccountSubscription` (functional implementation):
same guard and fetch, but the cursor is updated after each individual
delivery. -/
def accountTickF (hist : List Tx) (limit : Nat) (avail : Avail) (cb : Tx → Bool)
    (st : AccState) : AccState × List Tx :=
  if st.isProcessing then (st, [])
  else
    let newTransactions := fetchNewTransactionsF hist limit avail st.cursor none 1 (fetchFuel hist)
    if newTransactions.isEmpty then ({ cursor := st.cursor, isProcessing := false }, [])
    else
      let ordered := newTransactions.reverse
      let r := deliverFunc cb ordered st.cursor
      ({ cursor := r.1, isProcessing := false }, r.2.1)

/-! ## Chain-scoped (block) subscription

`BlockSubscription.ts` and `createBlockSubscription` implement the same
logic; one model covers both.  Each query-port call carries an attempt
index; the source performs exactly one attempt per call (index 0), so the
code below consults only attempt 0 — modelling failure and what a retry
would have returned without changing the source's control flow. -/

/-- Shard descriptor: the `{workchain, shard, seqno}` triple. -/
structure BlockId where
  workchain : Int
  shard : String
  seqno : Nat
  deriving DecidableEq, Repr

/-- The short transaction reference returned by `getShardTransactions`. -/
structure TxRef where
  account : Nat
  lt : Nat
  hash : Nat
  deriving DecidableEq, Repr

/-- The chain query port.  `Except Unit` models a thrown error; the extra
`Nat` argument of the two per-shard calls is the attempt index (the source
always makes exactly one attempt, index 0). -/
structure ChainPort where
  latestSeqno : Except Unit Nat
  workchainShards : Nat → Except Unit (List BlockId)
  shardTransactions : BlockId → Nat → Except Unit (List TxRef)
  getTransaction : TxRef → Nat → Except Unit (Option Tx)

/-- The root (masterchain) shard constant from `processBlock`. -/
def masterchainShard : String := "8000000000000000"

/-- The root shard descriptor processed at every sequence number. -/
def rootShard (seqno : Nat) : BlockId := ⟨-1, masterchainShard, seqno⟩

/-- The inner loop of `processShard`: for each short reference fetch the full
transaction and deliver it; a thrown error (full-transaction fetch or
callback) stops the loop.  Returns the transactions delivered before the
stop and whether the loop completed. -/
def processRefs (port : ChainPort) (cb : Tx → BlockId → Bool) (block : BlockId) :
    List TxRef → List Tx × Bool
  | [] => ([], true)
  | r :: rest =>
    match port.getTransaction r 0 with
    | .error _ => ([], false)
    | .ok none => processRefs port cb block rest
    | .ok (some fullTx) =>
      if cb fullTx block then
        let acc := processRefs port cb block rest
        (fullTx :: acc.1, acc.2)
      else ([], false)

/-- `processShard`: fetch the shard's transaction list and deliver each full
transaction; every error inside is caught and turned into a result of 0
(the transactions already delivered before the error stay delivered). -/
def processShard (port : ChainPort) (cb : Tx → BlockId → Bool) (block : BlockId) :
    Nat × List Tx :=
  match port.shardTransactions block 0 with
  | .error _ => (0, [])
  | .ok transactions =>
    let r := processRefs port cb block transactions
    if r.2 then (transactions.length, r.1) else (0, r.1)

/-- Processing of a list of shards in enumeration order (the `for` loop of
`processBlock`), accumulating counts and deliveries. -/
def processShards (port : ChainPort) (cb : Tx → BlockId → Bool) :
    List BlockId → Nat × List Tx
  | [] => (0, [])
  | b :: rest =>
    let r := processShard port cb b
    let acc := processShards port cb rest
    (r.1 + acc.1, r.2 ++ acc.2)

/-- `processBlock`: process the root shard first, then every shard the chain
reports at `seqno`.  Returns the count, the deliveries, the list of shard
descriptors processed, and whether the block completed (a failing shard
enumeration propagates out as an error, modelled by the `false` flag). -/
def processBlock (port : ChainPort) (cb : Tx → BlockId → Bool) (seqno : Nat) :
    (Nat × List Tx × List BlockId) × Bool :=
  let root := processShard port cb (rootShard seqno)
  match port.workchainShards seqno with
  | .error _ => ((root.1, root.2, [rootShard seqno]), false)
  | .ok shards =>
    let rest := processShards port cb shards
    ((root.1 + rest.1, root.2 ++ rest.2, rootShard seqno :: shards), true)

/-- The `while nextSeqno <= targetSeqno` loop of `processNextBlock`:
`lastProcessedBlock` is set to `n` after `processBlock n` returns; an error
propagating out of `processBlock` aborts the loop with the cursor at the last
completed sequence number.  `steps` is `targetSeqno - lastProcessedBlock`. -/
def runBlocks (port : ChainPort) (cb : Tx → BlockId → Bool) :
    Nat → Nat → Nat × List Tx
  | last, 0 => (last, [])
  | last, steps + 1 =>
    let r := processBlock port cb (last + 1)
    if r.2 then
      let acc := runBlocks port cb (last + 1) steps
      (acc.1, r.1.2.1 ++ acc.2)
    else (last, r.1.2.1)

/-- `processNextBlock`: read the latest masterchain seqno and process every
sequence number from `lastProcessedBlock + 1` up to it, one at a time.
The `Bool` records whether the tick body ran to completion (its failure is
absorbed by the tick's catch either way). -/
def processNextBlock (port : ChainPort) (cb : Tx → BlockId → Bool) (last : Nat) :
    (Nat × List Tx) × Bool :=
  match port.latestSeqno with
  | .error _ => ((last, []), false)
  | .ok targetSeqno =>
    if targetSeqno ≤ last then ((last, []), true)
    else (runBlocks port cb last (targetSeqno - last), true)

/-- Mutable state of a block subscriber. -/
structure BlockState where
  lastProcessedBlock : Nat
  isProcessing : Bool
  deriving DecidableEq, Repr

/-- One tick of `BlockSubscription.start` / `createBlockSubscription`:
guarded by `isProcessing`; any error from `processNextBlock` is caught and
`isProcessing` is reset. -/
def blockTick (port : ChainPort) (cb : Tx → BlockId → Bool) (st : BlockState) :
    BlockState × List Tx :=
  if st.isProcessing then (st, [])
  else
    let r := processNextBlock port cb st.lastProcessedBlock
    ({ lastProcessedBlock := r.1.1, isProcessing := false }, r.1.2)

/-! ## Deposit classifier: `parseComment`

The body cell and the slice operations on it belong to the external SDK;
a body is modelled by the outcome of the two slice operations the parsers
perform (`beginParse().loadUint(32)` combined into one outcome, and
`loadStringTail()`), and an error carries whether its message contains the
substring `slice` (the only property of the message the source inspects). -/

/-- A parse error thrown by the SDK slice operations, classified by whether
its message contains the substring `slice`. -/
inductive ParseErr where
  | sliceErr : ParseErr
  | otherErr : ParseErr
  deriving DecidableEq, Repr

/-- A message body, characterized by the outcomes of the slice operations. -/
structure Body where
  loadOp : Except ParseErr Nat
  loadStringTail : Except ParseErr String

/-- A body is malformed when one of the slice operations the parser performs
on it throws. -/
def Body.malformed (b : Body) : Prop :=
  (∃ e, b.loadOp = .error e) ∨ (b.loadOp = .ok 0 ∧ ∃ e, b.loadStringTail = .error e)

instance (b : Body) : Decidable b.malformed := by
  unfold Body.malformed
  cases h : b.loadOp with
  | error e => exact .isTrue (Or.inl ⟨e, rfl⟩)
  | ok op =>
    by_cases hop : op = 0
    · subst hop
      cases ht : b.loadStringTail with
      | error e => exact .isTrue (Or.inr ⟨rfl, e, rfl⟩)
      | ok s =>
        refine .isFalse ?_
        rintro (⟨e, he⟩ | ⟨_, e, he⟩)
        · exact Except.noConfusion he
        · exact Except.noConfusion he
    · refine .isFalse ?_
      rintro (⟨e, he⟩ | ⟨h0, _⟩)
      · exact Except.noConfusion he
      · exact hop (by injection h0)

/-- `parseComment` from `deposits.ts`: a missing body or any parse error
yields no comment; an op code of 0 yields the string tail. -/
def parseComment (body : Option Body) : Option String :=
  match body with
  | none => none
  | some b =>
    match b.loadOp with
    | .error _ => none
    | .ok op =>
      if op = 0 then
        match b.loadStringTail with
        | .error _ => none
        | .ok s => some s
      else none

/-- `parseComment` from `invoices.ts`: an error whose message contains
`slice` yields no comment, any other error is rethrown (`Except.error`). -/
def parseCommentInvoices (body : Body) : Except ParseErr (Option String) :=
  match body.loadOp with
  | .error e => if e = .sliceErr then .ok none else .error e
  | .ok op =>
    if op = 0 then
      match body.loadStringTail with
      | .error e => if e = .sliceErr then .ok none else .error e
      | .ok s => .ok (some s)
    else .ok none

/-- The fields of a delivered transaction that `onTransaction` in
`deposits.ts` inspects. -/
structure DepTx where
  hasSrc : Bool
  isInternal : Bool
  outMessagesCount : Nat
  body : Option Body
  amount : Nat
  sender : Nat

/-- A recognized deposit. -/
structure Deposit where
  amount : Nat
  sender : Nat
  comment : String
  deriving DecidableEq, Repr

/-- `onTransaction` from `deposits.ts` as the consumer of the engine's
delivery: skip when there is no source, when there are outbound messages,
when there is no comment, or when the message is not internal; otherwise
recognize a deposit. -/
def handleTransaction (tx : DepTx) : Option Deposit :=
  if !tx.hasSrc then none
  else if tx.outMessagesCount > 0 then none
  else
    match parseComment tx.body with
    | none => none
    | some comment =>
      if !tx.isInternal then none
      else some ⟨tx.amount, tx.sender, comment⟩

/-! ## Concrete instances used for scenario theorems -/

/-- The id of the last element of a delivered prefix, falling back to the
pre-tick cursor when nothing was delivered. -/
def lastId (delivered : List Tx) (cur0 : Option Cur) : Option Cur :=
  match delivered.getLast? with
  | some t => some (txId t)
  | none => cur0

/-- A callback that always succeeds (chain mode). -/
def cbAll : Tx → BlockId → Bool := fun _ _ => true

/-- A subordinate shard reported by the chain at seqno 6. -/
def shardB : BlockId := ⟨0, "2000000000000000", 6⟩

/-- A short reference present in `shardB`. -/
def refB : TxRef := ⟨10, 11, 12⟩

/-- A chain port where the root shard succeeds but every fetch of `shardB`'s
transaction list throws. -/
def portShardFail : ChainPort where
  latestSeqno := .ok 6
  workchainShards := fun _ => .ok [shardB]
  shardTransactions := fun b _ => if b.workchain = -1 then .ok [⟨10, 11, 12⟩] else .error ()
  getTransaction := fun r _ => .ok (some ⟨r.lt, r.hash⟩)

/-- A chain port where fetching `shardB`'s transaction list fails on the
first attempt only: a retry would have succeeded. -/
def portTransient : ChainPort where
  latestSeqno := .ok 6
  workchainShards := fun _ => .ok [shardB]
  shardTransactions := fun b attempt =>
    if b.workchain = -1 then .ok []
    else if attempt = 0 then .error () else .ok [refB]
  getTransaction := fun r _ => .ok (some ⟨r.lt, r.hash⟩)

/-- A network where only the top-level page (offset absent) is available:
every deeper page fetch fails on all attempts. -/
def availDeepFail : Avail := fun o _ => o.isNone

/-- A network where every first attempt fails and every retry succeeds. -/
def availFlaky : Avail := fun _ k => decide (1 ≤ k)

/-- A network where every attempt of every fetch fails. -/
def availNone : Avail := fun _ _ => false

/-- A chain port whose shard enumeration throws. -/
def portEnumFail : ChainPort where
  latestSeqno := .ok 6
  workchainShards := fun _ => .error ()
  shardTransactions := fun _ _ => .ok []
  getTransaction := fun r _ => .ok (some ⟨r.lt, r.hash⟩)

/-- A chain port agreeing with `portTransient` on every first attempt but
differing on retries. -/
def portTransient2 : ChainPort where
  latestSeqno := .ok 6
  workchainShards := fun _ => .ok [shardB]
  shardTransactions := fun b attempt =>
    if b.workchain = -1 then .ok []
    else if attempt = 0 then .error () else .ok []
  getTransaction := fun r _ => .ok (some ⟨r.lt, r.hash⟩)

/-! ## Helper lemmas about the page scan -/

lemma takeWhile_of_not_any {m : Tx → Bool} :
    ∀ {l : List Tx}, l.any m = false → l.takeWhile (fun t => !m t) = l := by
  intro l h
  induction l with
  | nil => rfl
  | cons a as ih =>
    simp only [List.any_cons, Bool.or_eq_false_iff] at h
    simp [List.takeWhile_cons, h.1, ih h.2]

lemma takeWhile_append_all {m : Tx → Bool} {l₁ l₂ : List Tx}
    (h : ∀ t ∈ l₁, m t = false) :
    (l₁ ++ l₂).takeWhile (fun t => !m t) = l₁ ++ l₂.takeWhile (fun t => !m t) := by
  induction l₁ with
  | nil => rfl
  | cons a as ih =>
    have ha : m a = false := h a (by simp)
    simp only [List.cons_append, List.takeWhile_cons, ha]
    simp [ih fun t ht => h t (by simp [ht])]

lemma takeWhile_middle {m : Tx → Bool} {l₁ l₂ : List Tx} {x : Tx}
    (h : ∀ t ∈ l₁, m t = false) (hx : m x = true) :
    (l₁ ++ x :: l₂).takeWhile (fun t => !m t) = l₁ := by
  rw [takeWhile_append_all h]
  simp [List.takeWhile_cons, hx]

lemma takeWhile_take_of_any {m : Tx → Bool} :
    ∀ (l : List Tx) (n : Nat), (l.take n).any m = true →
      l.takeWhile (fun t => !m t) = (l.take n).takeWhile (fun t => !m t) := by
  intro l
  induction l with
  | nil => intro n h; simp at h
  | cons a as ih =>
    intro n h
    cases n with
    | zero => simp at h
    | succ n =>
      simp only [List.take_succ_cons] at h ⊢
      cases ha : m a with
      | true => simp [List.takeWhile_cons, ha]
      | false =>
        simp only [List.any_cons, ha, Bool.false_or] at h
        simp [List.takeWhile_cons, ha, ih n h]

lemma dropWhile_middle {m : Tx → Bool} {l₁ l₂ : List Tx} {x : Tx}
    (h : ∀ t ∈ l₁, m t = false) (hx : m x = true) :
    (l₁ ++ x :: l₂).dropWhile (fun t => !m t) = x :: l₂ := by
  induction l₁ with
  | nil => simp [List.dropWhile_cons, hx]
  | cons a as ih =>
    have ha : m a = false := h a (by simp)
    simp only [List.cons_append, List.dropWhile_cons, ha]
    simp [ih fun t ht => h t (by simp [ht])]

/-! ## Helper lemmas about `afterOffset` -/

lemma matches_self (t : Tx) : isAlreadyProcessed (some (txId t)) t = true := by
  simp [isAlreadyProcessed, txId]

lemma afterOffset_spec {l₁ l₂ : List Tx} {x : Tx}
    (h : ∀ u ∈ l₁, txId u ≠ txId x) :
    afterOffset (l₁ ++ x :: l₂) (some (txId x)) = l₂ := by
  show ((l₁ ++ x :: l₂).dropWhile (fun t => decide (txId t ≠ txId x))).drop 1 = l₂
  have hconv : (fun t => decide (txId t ≠ txId x))
      = fun t => !(decide (txId t = txId x)) := by
    funext t
    simp [decide_not]
  rw [hconv, dropWhile_middle (fun t ht => by simp [h t ht]) (by simp)]
  rfl

lemma afterOffset_suffix (hist : List Tx) (offset : Option Cur) :
    ∃ pre, hist = pre ++ afterOffset hist offset := by
  cases offset with
  | none => exact ⟨[], rfl⟩
  | some c =>
    show ∃ pre, hist = pre ++ (hist.dropWhile (fun t => decide (txId t ≠ c))).drop 1
    rcases hd : hist.dropWhile (fun t => decide (txId t ≠ c)) with _ | ⟨y, ys⟩
    · exact ⟨hist, by simp⟩
    · refine ⟨hist.takeWhile (fun t => decide (txId t ≠ c)) ++ [y], ?_⟩
      have h2 := List.takeWhile_append_dropWhile
        (p := fun t => decide (txId t ≠ c)) (l := hist)
      rw [hd] at h2
      have h3 : List.drop 1 (y :: ys) = ys := rfl
      rw [h3, List.append_assoc]
      exact h2.symm

lemma nodup_ids_before {l₁ l₂ : List Tx} {x : Tx}
    (h : ((l₁ ++ x :: l₂).map txId).Nodup) :
    ∀ u ∈ l₁, txId u ≠ txId x := by
  intro u hu he
  rw [List.map_append, List.map_cons] at h
  have h2 := List.nodup_middle.mp h
  rw [List.nodup_cons] at h2
  exact h2.1 (List.mem_append_left _ (he ▸ List.mem_map_of_mem txId hu))

/-! ## Behavior of the page fetch under failures and retries -/

lemma fetch_all_fail {hist : List Tx} {limit : Nat} {avail : Avail} {cursor : Option Cur}
    {offset : Option Cur} (h : ∀ k, avail offset k = false) :
    ∀ fuel r, fetchNewTransactions hist limit avail cursor offset r fuel = [] := by
  intro fuel
  induction fuel with
  | zero => intro r; rfl
  | succ fuel ih =>
    intro r
    simp only [fetchNewTransactions, h r, Bool.false_eq_true, if_false]
    split
    · exact ih (r + 1)
    · rfl

lemma fetch_retry_shift {hist : List Tx} {limit : Nat} {avail : Avail} {cursor : Option Cur}
    {offset : Option Cur} :
    ∀ (k r fuel : Nat), (∀ j, r ≤ j → j < r + k → avail offset j = false) → r + k < 10 →
      fetchNewTransactions hist limit avail cursor offset r (fuel + k)
        = fetchNewTransactions hist limit avail cursor offset (r + k) fuel := by
  intro k
  induction k with
  | zero => intro r fuel _ _; rfl
  | succ k ih =>
    intro r fuel hfail hlt
    have h0 : avail offset r = false := hfail r le_rfl (by omega)
    have hstep : fuel + (k + 1) = (fuel + k) + 1 := by omega
    rw [hstep]
    simp only [fetchNewTransactions, h0, Bool.false_eq_true, if_false]
    have h1 : r + 1 < 10 := by omega
    rw [if_pos h1]
    have hrec := ih (r + 1) fuel (fun j hj1 hj2 => hfail j (by omega) (by omega)) (by omega)
    have harr : r + 1 + k = r + (k + 1) := by omega
    rw [harr] at hrec
    exact hrec

lemma fetch_eq_takeWhile {hist : List Tx} {limit : Nat} {avail : Avail} {cursor : Option Cur}
    (hids : (hist.map txId).Nodup) (hlim : 0 < limit)
    (hav : ∀ o, ∃ k, k < 10 ∧ avail o k = true) :
    ∀ fuel offset rem, afterOffset hist offset = rem → 10 * rem.length + 10 ≤ fuel →
      fetchNewTransactions hist limit avail cursor offset 0 fuel
        = rem.takeWhile (fun t => !isAlreadyProcessed cursor t) := by
  intro fuel
  induction fuel using Nat.strong_induction_on with
  | _ fuel IH =>
    intro offset rem hrem hfuel
    have hex : ∃ k, avail offset k = true := (hav offset).imp fun k hk => hk.2
    have hk0 : avail offset (Nat.find hex) = true := Nat.find_spec hex
    have hk0min : ∀ j, j < Nat.find hex → avail offset j = false := by
      intro j hj
      have := Nat.find_min hex hj
      simpa using this
    have hk0lt : Nat.find hex < 10 := by
      obtain ⟨k, hk10, hkav⟩ := hav offset
      exact lt_of_le_of_lt (Nat.find_min' hex hkav) hk10
    obtain ⟨f1, hf1⟩ : ∃ f1, fuel = (f1 + 1) + Nat.find hex := ⟨fuel - Nat.find hex - 1, by omega⟩
    rw [hf1, fetch_retry_shift (Nat.find hex) 0 (f1 + 1)
      (fun j hj1 hj2 => hk0min j (by omega)) (by omega)]
    simp only [Nat.zero_add]
    have htrans : getTransactions hist limit offset = rem.take limit := by
      rw [getTransactions, hrem]
    simp only [fetchNewTransactions, hk0, if_true, htrans]
    rcases rem with _ | ⟨x, rs⟩
    · simp
    · have hpage_ne : (x :: rs).take limit ≠ [] := by
        rcases limit with _ | l
        · omega
        · simp
      rw [if_neg (by simpa using hpage_ne)]
      rcases hany : ((x :: rs).take limit).any (isAlreadyProcessed cursor) with _ | _
      · -- no cursor match within the page
        have hnom : ∀ t ∈ (x :: rs).take limit, isAlreadyProcessed cursor t = false := by
          intro t ht
          have := List.any_eq_false.mp hany t ht
          simpa using this
        rw [if_neg (by simp [hany])]
        rcases hlen : decide (((x :: rs).take limit).length = limit) with _ | _
        · -- short page: the scan is exhausted, page = rem
          have hshort : (x :: rs).length < limit := by
            have hle := List.length_take_le limit (x :: rs)
            have hne := of_decide_eq_false hlen
            by_contra hcon
            exact hne (by rw [List.length_take]; omega)
          have hpage : (x :: rs).take limit = x :: rs :=
            List.take_of_length_le (by omega)
          rw [if_neg (of_decide_eq_false hlen), hpage]
        · -- full page: recurse on the next older page
          have hlen' := of_decide_eq_true hlen
          rw [if_pos hlen']
          rcases hgl : ((x :: rs).take limit).getLast? with _ | lastTx
          · exact absurd (List.getLast?_eq_none_iff.mp hgl) hpage_ne
          · -- the next offset points just past this page
            obtain ⟨pre, hpre⟩ := afterOffset_suffix hist offset
            rw [hrem] at hpre
            have hsplit : x :: rs = (x :: rs).take limit ++ (x :: rs).drop limit :=
              (List.take_append_drop limit (x :: rs)).symm
            have hlast : ((x :: rs).take limit).dropLast ++ [lastTx] = (x :: rs).take limit :=
              List.dropLast_append_getLast? lastTx (Option.mem_def.mpr hgl)
            have hist_eq : hist = (pre ++ ((x :: rs).take limit).dropLast)
                ++ lastTx :: (x :: rs).drop limit := by
              rw [hpre]
              conv_lhs => rw [hsplit, ← hlast]
              simp [List.append_assoc]
            have hfresh : ∀ u ∈ pre ++ ((x :: rs).take limit).dropLast,
                txId u ≠ txId lastTx := nodup_ids_before (hist_eq ▸ hids)
            have hrem' : afterOffset hist (some (txId lastTx)) = (x :: rs).drop limit := by
              rw [hist_eq]
              exact afterOffset_spec hfresh
            have hdroplen : ((x :: rs).drop limit).length = (x :: rs).length - limit :=
              List.length_drop limit (x :: rs)
            have hlength : (1 : Nat) ≤ (x :: rs).length := by simp
            show ((x :: rs).take limit).takeWhile (fun t => !isAlreadyProcessed cursor t)
                ++ fetchNewTransactions hist limit avail cursor (some (txId lastTx)) 0 f1
              = (x :: rs).takeWhile (fun t => !isAlreadyProcessed cursor t)
            rw [IH f1 (by omega) (some (txId lastTx)) ((x :: rs).drop limit) hrem' (by omega)]
            rw [takeWhile_of_not_any (List.any_eq_false.mpr (by
              intro t ht
              simp [hnom t ht]))]
            conv_rhs => rw [hsplit]
            exact (takeWhile_append_all hnom).symm
      · -- the cursor transaction occurs in this page: truncate there
        rw [if_pos (by simp [hany])]
        exact (takeWhile_take_of_any (x :: rs) limit hany).symm

/-! ## Behavior of the delivery loops -/

lemma deliverAll_all {cb : Tx → Bool} :
    ∀ {l : List Tx}, (∀ t ∈ l, cb t = true) → deliverAll cb l = (l, true) := by
  intro l
  induction l with
  | nil => intro _; rfl
  | cons a as ih =>
    intro h
    simp only [deliverAll, h a (by simp), if_true, ih fun t ht => h t (by simp [ht])]

lemma deliverAll_middle {cb : Tx → Bool} {l₁ l₂ : List Tx} {x : Tx}
    (h : ∀ t ∈ l₁, cb t = true) (hx : cb x = false) :
    deliverAll cb (l₁ ++ x :: l₂) = (l₁, false) := by
  induction l₁ with
  | nil => simp [deliverAll, hx]
  | cons a as ih =>
    simp only [List.cons_append, deliverAll, h a (by simp), if_true, List.append_eq,
      ih fun t ht => h t (by simp [ht])]

lemma lastId_cons (a : Tx) (l : List Tx) (cur : Option Cur) :
    lastId (a :: l) cur = lastId l (some (txId a)) := by
  cases l with
  | nil => rfl
  | cons b bs =>
    simp only [lastId, List.getLast?_cons_cons]
    cases hgl : (b :: bs).getLast? with
    | none => exact absurd (List.getLast?_eq_none_iff.mp hgl) (by simp)
    | some t => rfl

lemma deliverFunc_all {cb : Tx → Bool} :
    ∀ {l : List Tx} {cur : Option Cur}, (∀ t ∈ l, cb t = true) →
      deliverFunc cb l cur = (lastId l cur, l, true) := by
  intro l
  induction l with
  | nil => intro cur _; rfl
  | cons a as ih =>
    intro cur h
    simp only [deliverFunc, h a (by simp), if_true,
      @ih (some (txId a)) fun t ht => h t (by simp [ht]), lastId_cons]

lemma deliverFunc_middle {cb : Tx → Bool} {l₂ : List Tx} {x : Tx}
    (hx : cb x = false) :
    ∀ {l₁ : List Tx} {cur : Option Cur}, (∀ t ∈ l₁, cb t = true) →
      deliverFunc cb (l₁ ++ x :: l₂) cur = (lastId l₁ cur, l₁, false) := by
  intro l₁
  induction l₁ with
  | nil => intro cur _; simp [deliverFunc, hx, lastId]
  | cons a as ih =>
    intro cur h
    simp only [List.cons_append, deliverFunc, h a (by simp), if_true, List.append_eq,
      @ih (some (txId a)) fun t ht => h t (by simp [ht]), lastId_cons]

lemma accountTick_empty {hist : List Tx} {limit : Nat} {avail : Avail} {cb : Tx → Bool}
    {cursor0 : Option Cur}
    (hfetch : fetchNewTransactions hist limit avail cursor0 none 0 (fetchFuel hist) = []) :
    accountTick hist limit avail cb ⟨cursor0, false⟩ = (⟨cursor0, false⟩, []) := by
  show (if (fetchNewTransactions hist limit avail cursor0 none 0 (fetchFuel hist)).isEmpty
      then ((⟨cursor0, false⟩ : AccState), ([] : List Tx)) else _) = _
  rw [hfetch]
  rfl

lemma accountTick_cons {hist : List Tx} {limit : Nat} {avail : Avail} {cb : Tx → Bool}
    {cursor0 : Option Cur} {a : Tx} {as : List Tx}
    (hfetch : fetchNewTransactions hist limit avail cursor0 none 0 (fetchFuel hist) = a :: as) :
    accountTick hist limit avail cb ⟨cursor0, false⟩
      = if (deliverAll cb ((a :: as).reverse)).2
        then (⟨some (txId a), false⟩, (deliverAll cb ((a :: as).reverse)).1)
        else (⟨cursor0, false⟩, (deliverAll cb ((a :: as).reverse)).1) := by
  show (if (fetchNewTransactions hist limit avail cursor0 none 0 (fetchFuel hist)).isEmpty
      then ((⟨cursor0, false⟩ : AccState), ([] : List Tx)) else _) = _
  rw [hfetch]
  rfl

/-! ## Behavior of the chain-mode processing -/

lemma processShard_error {port : ChainPort} {cb : Tx → BlockId → Bool} {b : BlockId}
    (h : port.shardTransactions b 0 = .error ()) :
    processShard port cb b = (0, []) := by
  simp [processShard, h]

lemma processRefs_firstAttempt {port port' : ChainPort} {cb : Tx → BlockId → Bool} {b : BlockId}
    (hg : ∀ r, port.getTransaction r 0 = port'.getTransaction r 0) :
    ∀ refs, processRefs port cb b refs = processRefs port' cb b refs := by
  intro refs
  induction refs with
  | nil => rfl
  | cons r rest ih =>
    simp only [processRefs, hg r]
    cases port'.getTransaction r 0 with
    | error e => rfl
    | ok o =>
      cases o with
      | none => exact ih
      | some tx =>
        cases htx : cb tx b with
        | false => simp [htx]
        | true => simp [htx, ih]

lemma processShard_firstAttempt {port port' : ChainPort} {cb : Tx → BlockId → Bool} {b : BlockId}
    (hs : port.shardTransactions b 0 = port'.shardTransactions b 0)
    (hg : ∀ r, port.getTransaction r 0 = port'.getTransaction r 0) :
    processShard port cb b = processShard port' cb b := by
  simp only [processShard, hs, processRefs_firstAttempt hg]

lemma parseComment_malformed_none {b : Body} (h : b.malformed) :
    parseComment (some b) = none := by
  rcases h with ⟨e, he⟩ | ⟨h0, e, he⟩
  · simp [parseComment, he]
  · simp [parseComment, h0, he]

/-! ## Claims -/

/-- Claim C6: with transactions at lt 100, 200, 300, no initial cursor and page
size 2, the first tick pages `[300,200]` then `[100]`, collects
`[300,200,100]`, delivers `[100,200,300]` and ends with the cursor at
`(300, hash300)`; after a new transaction at lt 400 the next tick pages
`[400,300]`, truncates at the cursor match and delivers exactly `[400]`. -/
theorem claim6_concrete_scenario :
    getTransactions [⟨300, 93⟩, ⟨200, 92⟩, ⟨100, 91⟩] 2 none = [⟨300, 93⟩, ⟨200, 92⟩]
    ∧ getTransactions [⟨300, 93⟩, ⟨200, 92⟩, ⟨100, 91⟩] 2 (some ⟨200, 92⟩) = [⟨100, 91⟩]
    ∧ fetchNewTransactions [⟨300, 93⟩, ⟨200, 92⟩, ⟨100, 91⟩] 2 availOk none none 0
        (fetchFuel [⟨300, 93⟩, ⟨200, 92⟩, ⟨100, 91⟩]) = [⟨300, 93⟩, ⟨200, 92⟩, ⟨100, 91⟩]
    ∧ accountTick [⟨300, 93⟩, ⟨200, 92⟩, ⟨100, 91⟩] 2 availOk (fun _ => true) ⟨none, false⟩
        = (⟨some ⟨300, 93⟩, false⟩, [⟨100, 91⟩, ⟨200, 92⟩, ⟨300, 93⟩])
    ∧ getTransactions [⟨400, 94⟩, ⟨300, 93⟩, ⟨200, 92⟩, ⟨100, 91⟩] 2 none
        = [⟨400, 94⟩, ⟨300, 93⟩]
    ∧ accountTick [⟨400, 94⟩, ⟨300, 93⟩, ⟨200, 92⟩, ⟨100, 91⟩] 2 availOk (fun _ => true)
        ⟨some ⟨300, 93⟩, false⟩ = (⟨some ⟨400, 94⟩, false⟩, [⟨400, 94⟩]) := by
  decide

/-- Claim C7: for every processed sequence number the root masterchain shard
`(workchain -1, shard 8000000000000000, seqno)` is processed in addition to
the chain-reported subordinate list: the shards processed are exactly the
root shard prepended to the reported list, and the deliveries decompose
accordingly. -/
theorem claim7_root_shard (port : ChainPort) (cb : Tx → BlockId → Bool) (seqno : Nat)
    (shards : List BlockId) (h : port.workchainShards seqno = .ok shards) :
    (processBlock port cb seqno).1.2.2 = rootShard seqno :: shards
    ∧ rootShard seqno = ⟨-1, "8000000000000000", seqno⟩
    ∧ (processBlock port cb seqno).1.2.1
        = (processShard port cb (rootShard seqno)).2 ++ (processShards port cb shards).2 := by
  refine ⟨?_, rfl, ?_⟩ <;> simp [processBlock, h]

/-- Claim C7 witness: the root shard is processed at seqno 6 of `portShardFail`
alongside the reported shard `shardB`. -/
theorem claim7_root_shard_witness :
    (processBlock portShardFail cbAll 6).1.2.2 = rootShard 6 :: [shardB]
    ∧ rootShard 6 = ⟨-1, "8000000000000000", 6⟩
    ∧ (processBlock portShardFail cbAll 6).1.2.1
        = (processShard portShardFail cbAll (rootShard 6)).2
          ++ (processShards portShardFail cbAll [shardB]).2 :=
  claim7_root_shard portShardFail cbAll 6 [shardB] rfl

/-- Claim C1 counterexample: at seqno 6 the root shard is drained but fetching the
reported shard `shardB` throws; the claim says the tick aborts with the
cursor unchanged at 5, yet the tick advances `lastProcessedBlock` to 6 and
neither shard will be re-processed. -/
theorem claim1_counterexample :
    blockTick portShardFail cbAll ⟨5, false⟩ = (⟨6, false⟩, [⟨11, 12⟩])
    ∧ portShardFail.shardTransactions shardB 0 = .error ()
    ∧ (6 : Nat) ≠ 5 := by
  refine ⟨by decide, rfl, by decide⟩

/-- Claim C1 (amended): a failure inside a shard (shard-transaction fetch,
full-transaction fetch, or callback) is caught per shard — the shard yields
zero transactions, the block still completes, and `lastProcessedBlock`
advances past it; only a failing shard enumeration (or latest-seqno query)
aborts the tick with the cursor left at the last fully completed sequence
number, which is then re-processed from scratch. -/
theorem claim1_amended :
    (∀ (port : ChainPort) (cb : Tx → BlockId → Bool) (b : BlockId),
      port.shardTransactions b 0 = .error () → processShard port cb b = (0, []))
    ∧ (∀ (port : ChainPort) (cb : Tx → BlockId → Bool) (seqno : Nat) (shards : List BlockId),
      port.workchainShards seqno = .ok shards → (processBlock port cb seqno).2 = true)
    ∧ (∀ (port : ChainPort) (cb : Tx → BlockId → Bool) (last steps : Nat),
      (processBlock port cb (last + 1)).2 = true →
        (runBlocks port cb last (steps + 1)).1 = (runBlocks port cb (last + 1) steps).1)
    ∧ (∀ (port : ChainPort) (cb : Tx → BlockId → Bool) (last steps : Nat),
      (processBlock port cb (last + 1)).2 = false →
        (runBlocks port cb last (steps + 1)).1 = last) := by
  refine ⟨?_, ?_, ?_, ?_⟩
  · intro port cb b h
    exact processShard_error h
  · intro port cb seqno shards h
    simp [processBlock, h]
  · intro port cb last steps h
    simp [runBlocks, h]
  · intro port cb last steps h
    simp [runBlocks, h]

/-- Claim C1 amended witness: the failing shard of `portShardFail` yields zero and
the block still advances, while the failing enumeration of `portEnumFail`
leaves the cursor at 5. -/
theorem claim1_amended_witness :
    processShard portShardFail cbAll shardB = (0, [])
    ∧ (processBlock portShardFail cbAll 6).2 = true
    ∧ (runBlocks portShardFail cbAll 5 1).1 = (runBlocks portShardFail cbAll 6 0).1
    ∧ (runBlocks portEnumFail cbAll 5 1).1 = 5 :=
  ⟨claim1_amended.1 portShardFail cbAll shardB rfl,
   claim1_amended.2.1 portShardFail cbAll 6 [shardB] rfl,
   claim1_amended.2.2.1 portShardFail cbAll 5 0 (by decide),
   claim1_amended.2.2.2 portEnumFail cbAll 5 0 (by decide)⟩

/-- Claim C5 counterexample: fetching `shardB`'s transactions fails on the first
attempt but would succeed on the second; the claim says chain-mode calls are
retried with backoff before giving up, yet the shard yields nothing, its
transaction is never delivered, and the tick advances past seqno 6. -/
theorem claim5_counterexample :
    processShard portTransient cbAll shardB = (0, [])
    ∧ portTransient.shardTransactions shardB 0 = .error ()
    ∧ portTransient.shardTransactions shardB 1 = .ok [refB]
    ∧ portTransient.getTransaction refB 0 = .ok (some ⟨11, 12⟩)
    ∧ blockTick portTransient cbAll ⟨5, false⟩ = (⟨6, false⟩, []) := by
  refine ⟨by decide, rfl, rfl, rfl, by decide⟩

/-- Claim C5 (amended): chain-mode query calls are not wrapped in any retry —
`processShard`'s outcome depends only on the first attempt of each call, and
a first-attempt failure makes the shard contribute zero transactions; only
the account-mode page fetch retries (10 attempts, delay
`retryCount * 1000` ms, in the class implementation; 3 attempts, delay
`min(1000 * 2 ** (a-1), 10000)` ms, in the functional one), so a
first-attempt failure with a succeeding retry still delivers in account
mode. -/
theorem claim5_amended :
    (∀ (port port' : ChainPort) (cb : Tx → BlockId → Bool) (b : BlockId),
      port.shardTransactions b 0 = port'.shardTransactions b 0 →
      (∀ r, port.getTransaction r 0 = port'.getTransaction r 0) →
        processShard port cb b = processShard port' cb b)
    ∧ processShard portTransient cbAll shardB = (0, [])
    ∧ fetchNewTransactions [⟨300, 93⟩, ⟨200, 92⟩, ⟨100, 91⟩] 2 availFlaky none none 0
        (fetchFuel [⟨300, 93⟩, ⟨200, 92⟩, ⟨100, 91⟩]) = [⟨300, 93⟩, ⟨200, 92⟩, ⟨100, 91⟩]
    ∧ retryDelayClass 3 = 3000
    ∧ retryDelayFunc 1 = 1000 ∧ retryDelayFunc 2 = 2000 ∧ retryDelayFunc 5 = 10000 := by
  refine ⟨?_, by decide, by decide, rfl, rfl, rfl, by decide⟩
  intro port port' cb b hs hg
  exact processShard_firstAttempt hs hg

/-- Claim C5 amended witness: two ports agreeing on first attempts but differing
on retries are indistinguishable to `processShard`. -/
theorem claim5_amended_witness :
    processShard portTransient cbAll shardB = processShard portTransient2 cbAll shardB
    ∧ portTransient.shardTransactions shardB 1 ≠ portTransient2.shardTransactions shardB 1 :=
  ⟨claim5_amended.1 portTransient portTransient2 cbAll shardB rfl (fun _ => rfl),
   by
    intro h
    have h1 : portTransient.shardTransactions shardB 1 = Except.ok [refB] := rfl
    have h2 : portTransient2.shardTransactions shardB 1 = Except.ok [] := rfl
    rw [h1, h2] at h
    exact absurd (Except.ok.inj h) (by decide)⟩

/-- Claim C9 counterexample: a body whose first slice operation throws an error
whose message does not contain `slice` is malformed, yet the invoices.ts
parser rethrows instead of classifying it as no-comment. -/
theorem claim9_counterexample :
    parseCommentInvoices ⟨Except.error ParseErr.otherErr, Except.ok "x"⟩
      = Except.error ParseErr.otherErr
    ∧ Body.malformed ⟨Except.error ParseErr.otherErr, Except.ok "x"⟩
    ∧ ∀ s : Option String,
        (Except.error ParseErr.otherErr : Except ParseErr (Option String)) ≠ Except.ok s :=
  ⟨rfl, Or.inl ⟨ParseErr.otherErr, rfl⟩, fun _ h => Except.noConfusion h⟩

/-- Claim C9 (amended): the deposits.ts parser maps every malformed body to
no-comment — never raising — and its consumer skips such transactions; the
invoices.ts parser classifies a malformed body as no-comment exactly when
the thrown error's message contains `slice`, and rethrows it otherwise. -/
theorem claim9_amended :
    (∀ b : Body, b.malformed → parseComment (some b) = none)
    ∧ (∀ (tx : DepTx) (b : Body), tx.body = some b → b.malformed →
        handleTransaction tx = none)
    ∧ (∀ (b : Body) (e : ParseErr),
        (b.loadOp = .error e ∨ (b.loadOp = .ok 0 ∧ b.loadStringTail = .error e)) →
          parseCommentInvoices b = if e = .sliceErr then .ok none else .error e) := by
  refine ⟨?_, ?_, ?_⟩
  · intro b h
    exact parseComment_malformed_none h
  · intro tx b hb h
    unfold handleTransaction
    rw [hb, parseComment_malformed_none h]
    split
    · rfl
    · split
      · rfl
      · rfl
  · intro b e h
    rcases h with he | ⟨h0, he⟩
    · simp [parseCommentInvoices, he]
    · simp [parseCommentInvoices, h0, he]

/-- Claim C9 amended witness: a slice-error body is classified no-comment by both
parsers and skipped by the consumer; an other-error body is rethrown by the
invoices parser. -/
theorem claim9_amended_witness :
    parseComment (some ⟨Except.error ParseErr.sliceErr, Except.ok "x"⟩) = none
    ∧ handleTransaction
        ⟨true, true, 0, some ⟨Except.error ParseErr.sliceErr, Except.ok "x"⟩, 5, 7⟩ = none
    ∧ parseCommentInvoices ⟨Except.error ParseErr.sliceErr, Except.ok "x"⟩
        = (if ParseErr.sliceErr = ParseErr.sliceErr then Except.ok none
           else Except.error ParseErr.sliceErr)
    ∧ parseCommentInvoices ⟨Except.error ParseErr.otherErr, Except.ok "x"⟩
        = (if ParseErr.otherErr = ParseErr.sliceErr then Except.ok none
           else Except.error ParseErr.otherErr) :=
  ⟨claim9_amended.1 ⟨Except.error ParseErr.sliceErr, Except.ok "x"⟩
      (Or.inl ⟨ParseErr.sliceErr, rfl⟩),
   claim9_amended.2.1 ⟨true, true, 0, some ⟨Except.error ParseErr.sliceErr, Except.ok "x"⟩, 5, 7⟩
      ⟨Except.error ParseErr.sliceErr, Except.ok "x"⟩ rfl (Or.inl ⟨ParseErr.sliceErr, rfl⟩),
   claim9_amended.2.2 ⟨Except.error ParseErr.sliceErr, Except.ok "x"⟩ ParseErr.sliceErr
      (Or.inl rfl),
   claim9_amended.2.2 ⟨Except.error ParseErr.otherErr, Except.ok "x"⟩ ParseErr.otherErr
      (Or.inl rfl)⟩

/-- Claim C8: in all three subscriber implementations a tick that fires while
`isProcessing` is true returns immediately with the state untouched and no
deliveries (dropped, not queued), and a tick entered with `isProcessing`
false exits with `isProcessing` false on every path, error paths included
(arbitrary availability, ports and callbacks cover the error exits). -/
theorem claim8_single_tick_guard :
    (∀ (hist : List Tx) (limit : Nat) (avail : Avail) (cb : Tx → Bool) (st : AccState),
      st.isProcessing = true → accountTick hist limit avail cb st = (st, []))
    ∧ (∀ (hist : List Tx) (limit : Nat) (avail : Avail) (cb : Tx → Bool) (st : AccState),
      st.isProcessing = true → accountTickF hist limit avail cb st = (st, []))
    ∧ (∀ (port : ChainPort) (cb : Tx → BlockId → Bool) (st : BlockState),
      st.isProcessing = true → blockTick port cb st = (st, []))
    ∧ (∀ (hist : List Tx) (limit : Nat) (avail : Avail) (cb : Tx → Bool) (st : AccState),
      st.isProcessing = false → (accountTick hist limit avail cb st).1.isProcessing = false)
    ∧ (∀ (hist : List Tx) (limit : Nat) (avail : Avail) (cb : Tx → Bool) (st : AccState),
      st.isProcessing = false → (accountTickF hist limit avail cb st).1.isProcessing = false)
    ∧ (∀ (port : ChainPort) (cb : Tx → BlockId → Bool) (st : BlockState),
      st.isProcessing = false → (blockTick port cb st).1.isProcessing = false) := by
  refine ⟨?_, ?_, ?_, ?_, ?_, ?_⟩
  · intro hist limit avail cb st h
    simp [accountTick, h]
  · intro hist limit avail cb st h
    simp [accountTickF, h]
  · intro port cb st h
    simp [blockTick, h]
  · intro hist limit avail cb st h
    simp only [accountTick, h, Bool.false_eq_true, if_false]
    split
    · rfl
    · split
      · split <;> rfl
      · rfl
  · intro hist limit avail cb st h
    simp only [accountTickF, h, Bool.false_eq_true, if_false]
    split
    · rfl
    · rfl
  · intro port cb st h
    simp only [blockTick, h, Bool.false_eq_true, if_false]

/-- Claim C8 witness: a busy account tick and a busy block tick are dropped, and a
tick whose fetch fails on every attempt (error exit) still resets the
flag. -/
theorem claim8_single_tick_guard_witness :
    accountTick [⟨200, 92⟩, ⟨100, 91⟩] 10 availOk (fun _ => false) ⟨none, true⟩
      = (⟨none, true⟩, [])
    ∧ accountTickF [⟨200, 92⟩, ⟨100, 91⟩] 10 availOk (fun _ => false) ⟨none, true⟩
      = (⟨none, true⟩, [])
    ∧ blockTick portEnumFail cbAll ⟨5, true⟩ = (⟨5, true⟩, [])
    ∧ (accountTick [⟨200, 92⟩, ⟨100, 91⟩] 10 availNone (fun _ => false)
        ⟨none, false⟩).1.isProcessing = false
    ∧ (accountTickF [⟨200, 92⟩, ⟨100, 91⟩] 10 availNone (fun _ => false)
        ⟨none, false⟩).1.isProcessing = false
    ∧ (blockTick portEnumFail cbAll ⟨5, false⟩).1.isProcessing = false :=
  ⟨claim8_single_tick_guard.1 _ 10 availOk (fun _ => false) ⟨none, true⟩ rfl,
   claim8_single_tick_guard.2.1 _ 10 availOk (fun _ => false) ⟨none, true⟩ rfl,
   claim8_single_tick_guard.2.2.1 portEnumFail cbAll ⟨5, true⟩ rfl,
   claim8_single_tick_guard.2.2.2.1 _ 10 availNone (fun _ => false) ⟨none, false⟩ rfl,
   claim8_single_tick_guard.2.2.2.2.1 _ 10 availNone (fun _ => false) ⟨none, false⟩ rfl,
   claim8_single_tick_guard.2.2.2.2.2 portEnumFail cbAll ⟨5, false⟩ rfl⟩

/-- Claim C2 counterexample: the top page `[300,200]` succeeds, every attempt of
the deeper page fetch fails (retries exhausted), yet the tick delivers the
two newer transactions and advances the cursor to `(300, 93)` — the claim
says the cursor stays unchanged and nothing is delivered. -/
theorem claim2_counterexample :
    accountTick [⟨300, 93⟩, ⟨200, 92⟩, ⟨100, 91⟩] 2 availDeepFail (fun _ => true) ⟨none, false⟩
      = (⟨some ⟨300, 93⟩, false⟩, [⟨200, 92⟩, ⟨300, 93⟩])
    ∧ (∀ k, availDeepFail (some ⟨200, 92⟩) k = false)
    ∧ (some (⟨300, 93⟩ : Cur) ≠ none)
    ∧ ([⟨200, 92⟩, ⟨300, 93⟩] : List Tx) ≠ [] := by
  refine ⟨by decide, fun _ => rfl, by decide, by decide⟩

/-- Claim C2 (amended): when the top-level page fetch exhausts its retry attempts
the tick delivers nothing and leaves the cursor unchanged; but when a deeper
page fetch exhausts its retries during pagination, the successfully fetched
newer page is delivered anyway and the cursor advances to the newest fetched
transaction, skipping the older unfetched range. -/
theorem claim2_amended :
    (∀ (hist : List Tx) (limit : Nat) (avail : Avail) (cb : Tx → Bool) (st : AccState),
      st.isProcessing = false → (∀ k, avail none k = false) →
        accountTick hist limit avail cb st
          = ({ cursor := st.cursor, isProcessing := false }, []))
    ∧ (∀ (p1 rest : List Tx) (h1 l1 : Tx) (limit : Nat) (avail : Avail) (cursor : Option Cur),
        0 < limit → p1.length = limit → p1.head? = some h1 → p1.getLast? = some l1 →
        (∀ t ∈ p1, isAlreadyProcessed cursor t = false) →
        avail none 0 = true → (∀ k, avail (some (txId l1)) k = false) →
        accountTick (p1 ++ rest) limit avail (fun _ => true) ⟨cursor, false⟩
          = (⟨some (txId h1), false⟩, p1.reverse)) := by
  constructor
  · intro hist limit avail cb st hst hfail
    obtain ⟨cur0, flag⟩ := st
    have hflag : flag = false := hst
    subst hflag
    have hfetch : fetchNewTransactions hist limit avail cur0 none 0 (fetchFuel hist) = [] :=
      fetch_all_fail hfail (fetchFuel hist) 0
    exact accountTick_empty hfetch
  · intro p1 rest h1 l1 limit avail cursor hlim hlen hhead hlast hnom hav0 hfail
    have hne : p1 ≠ [] := by
      intro h
      rw [h] at hhead
      exact Option.noConfusion hhead
    have hpage : getTransactions (p1 ++ rest) limit none = p1 := by
      show (p1 ++ rest).take limit = p1
      rw [← hlen]
      exact List.take_left p1 rest
    have hany : p1.any (isAlreadyProcessed cursor) = false :=
      List.any_eq_false.mpr fun t ht => by simp [hnom t ht]
    obtain ⟨f1, hf1⟩ : ∃ f1, fetchFuel (p1 ++ rest) = f1 + 1 :=
      ⟨10 * (p1 ++ rest).length + 9, rfl⟩
    have hfetch : fetchNewTransactions (p1 ++ rest) limit avail cursor none 0
        (fetchFuel (p1 ++ rest)) = p1 := by
      rw [hf1]
      simp only [fetchNewTransactions, hav0, if_true, hpage]
      rw [if_neg (by simpa using hne), if_neg (by simp [hany]), if_pos hlen, hlast]
      show p1.takeWhile (fun t => !isAlreadyProcessed cursor t)
          ++ fetchNewTransactions (p1 ++ rest) limit avail cursor (some (txId l1)) 0 f1 = p1
      rw [fetch_all_fail hfail f1 0, takeWhile_of_not_any hany]
      simp
    obtain ⟨t1, hp1⟩ : ∃ t1, p1 = h1 :: t1 := by
      cases p1 with
      | nil => exact absurd hhead (by simp)
      | cons x xs =>
        refine ⟨xs, ?_⟩
        injection hhead with h
        rw [h]
    subst hp1
    rw [accountTick_cons hfetch, deliverAll_all fun _ _ => rfl]
    rfl

/-- Claim C2 amended witness: a tick against a fully failing network is a no-op
with the cursor kept, and the deep-page-failure scenario delivers the first
page and advances the cursor. -/
theorem claim2_amended_witness :
    accountTick [⟨300, 93⟩] 2 availNone (fun _ => true) ⟨some ⟨7, 7⟩, false⟩
      = ({ cursor := some ⟨7, 7⟩, isProcessing := false }, [])
    ∧ accountTick ([⟨300, 93⟩, ⟨200, 92⟩] ++ [⟨100, 91⟩]) 2 availDeepFail (fun _ => true)
        ⟨none, false⟩
      = (⟨some (txId ⟨300, 93⟩), false⟩, [⟨300, 93⟩, ⟨200, 92⟩].reverse) :=
  ⟨claim2_amended.1 [⟨300, 93⟩] 2 availNone (fun _ => true) ⟨some ⟨7, 7⟩, false⟩ rfl
      (fun _ => rfl),
   claim2_amended.2 [⟨300, 93⟩, ⟨200, 92⟩] [⟨100, 91⟩] ⟨300, 93⟩ ⟨200, 92⟩ 2 availDeepFail
      none (by decide) rfl rfl rfl (fun t _ => rfl) rfl (fun _ => rfl)⟩

/-- Claim C4 counterexample: the class implementation delivers `[100]` then the
callback fails on the second transaction; the claim says the cursor then
equals the first delivered transaction's id, but the cursor is only written
after the whole batch, so it remains the pre-tick value `none`. -/
theorem claim4_counterexample :
    accountTick [⟨200, 92⟩, ⟨100, 91⟩] 10 availOk (fun t => decide (t.lt = 100)) ⟨none, false⟩
      = (⟨none, false⟩, [⟨100, 91⟩])
    ∧ (none : Option Cur) ≠ some (txId ⟨100, 91⟩) := by
  decide

/-- Claim C4 (amended): the functional implementation advances the cursor after
each successful callback — a failure on the k-th of m transactions leaves it
at the (k-1)-th delivered id (the pre-tick cursor when k = 1) — while the
class implementation writes the cursor once, to the newest transaction of
the batch, only when every callback succeeded, and keeps the pre-tick cursor
whenever some callback fails. -/
theorem claim4_amended :
    (∀ (cb : Tx → Bool) (pre rest : List Tx) (f : Tx) (cur0 : Option Cur),
      (∀ t ∈ pre, cb t = true) → cb f = false →
        deliverFunc cb (pre ++ f :: rest) cur0 = (lastId pre cur0, pre, false))
    ∧ (∀ (cb : Tx → Bool) (l : List Tx) (cur0 : Option Cur),
      (∀ t ∈ l, cb t = true) → deliverFunc cb l cur0 = (lastId l cur0, l, true))
    ∧ (∀ (cb : Tx → Bool) (pre rest : List Tx) (f : Tx),
      (∀ t ∈ pre, cb t = true) → cb f = false →
        deliverAll cb (pre ++ f :: rest) = (pre, false))
    ∧ (∀ (hist : List Tx) (limit : Nat) (avail : Avail) (cb : Tx → Bool) (st : AccState),
      st.isProcessing = false →
      (deliverAll cb
        ((fetchNewTransactions hist limit avail st.cursor none 0 (fetchFuel hist)).reverse)).2
          = false →
        (accountTick hist limit avail cb st).1.cursor = st.cursor) := by
  refine ⟨?_, ?_, ?_, ?_⟩
  · intro cb pre rest f cur0 h hf
    exact deliverFunc_middle hf h
  · intro cb l cur0 h
    exact deliverFunc_all h
  · intro cb pre rest f h hf
    exact deliverAll_middle h hf
  · intro hist limit avail cb st hst hfail
    by_cases hemp :
        (fetchNewTransactions hist limit avail st.cursor none 0 (fetchFuel hist)).isEmpty
    · exfalso
      have h0 : fetchNewTransactions hist limit avail st.cursor none 0 (fetchFuel hist) = [] := by
        cases hv : fetchNewTransactions hist limit avail st.cursor none 0 (fetchFuel hist) with
        | nil => rfl
        | cons a as => rw [hv] at hemp; exact Bool.noConfusion hemp
      rw [h0] at hfail
      exact Bool.noConfusion (hfail.symm.trans rfl)
    · simp only [accountTick, hst, Bool.false_eq_true, if_false]
      rw [if_neg (by simp [hemp]), if_neg (by simp [hfail])]

/-- Claim C4 amended witness: with a callback that fails at lt 200, the functional
loop leaves the cursor at the previously delivered id, and the class tick
keeps the pre-tick cursor. -/
theorem claim4_amended_witness :
    deliverFunc (fun t => decide (t.lt = 100)) ([⟨100, 91⟩] ++ ⟨200, 92⟩ :: []) none
      = (lastId [⟨100, 91⟩] none, [⟨100, 91⟩], false)
    ∧ deliverFunc (fun _ => true) [⟨100, 91⟩, ⟨200, 92⟩] none
      = (lastId [⟨100, 91⟩, ⟨200, 92⟩] none, [⟨100, 91⟩, ⟨200, 92⟩], true)
    ∧ deliverAll (fun t => decide (t.lt = 100)) ([⟨100, 91⟩] ++ ⟨200, 92⟩ :: [])
      = ([⟨100, 91⟩], false)
    ∧ (accountTick [⟨200, 92⟩, ⟨100, 91⟩] 10 availOk (fun t => decide (t.lt = 100))
        ⟨none, false⟩).1.cursor = none :=
  ⟨claim4_amended.1 (fun t => decide (t.lt = 100)) [⟨100, 91⟩] [] ⟨200, 92⟩ none
      (by decide) (by decide),
   claim4_amended.2.1 (fun _ => true) [⟨100, 91⟩, ⟨200, 92⟩] none (fun _ _ => rfl),
   claim4_amended.2.2.1 (fun t => decide (t.lt = 100)) [⟨100, 91⟩] [] ⟨200, 92⟩
      (by decide) (by decide),
   claim4_amended.2.2.2 [⟨200, 92⟩, ⟨100, 91⟩] 10 availOk (fun t => decide (t.lt = 100))
      ⟨none, false⟩ rfl (by decide)⟩

/-- Claim C10: the already-processed check is an exact equality on both lt and
hash; when no transaction of the history equals the stored cursor, no
truncation occurs — the whole backward scan is collected and redelivered,
transactions older than the cursor's logical time included. -/
theorem claim10_exact_match_no_truncation (hist : List Tx) (limit : Nat) (c : Cur)
    (hlim : 0 < limit) (hids : (hist.map txId).Nodup)
    (hnone : ∀ t ∈ hist, ¬(t.lt = c.lt ∧ t.hash = c.hash)) :
    fetchNewTransactions hist limit availOk (some c) none 0 (fetchFuel hist) = hist
    ∧ (accountTick hist limit availOk (fun _ => true) ⟨some c, false⟩).2 = hist.reverse
    ∧ (∀ t : Tx, isAlreadyProcessed (some c) t = true ↔ (t.lt = c.lt ∧ t.hash = c.hash)) := by
  have hm : ∀ t ∈ hist, isAlreadyProcessed (some c) t = false := by
    intro t ht
    have := hnone t ht
    simp only [isAlreadyProcessed]
    rw [Bool.and_eq_false_iff]
    by_cases h1 : t.lt = c.lt
    · exact Or.inr (by simpa [h1] using this)
    · exact Or.inl (by simp [h1])
  have hfetch : fetchNewTransactions hist limit availOk (some c) none 0 (fetchFuel hist)
      = hist := by
    rw [fetch_eq_takeWhile hids hlim (fun o => ⟨0, by omega, rfl⟩) (fetchFuel hist) none hist
      rfl le_rfl]
    exact takeWhile_of_not_any (List.any_eq_false.mpr fun t ht => by simp [hm t ht])
  refine ⟨hfetch, ?_, ?_⟩
  · cases hh : hist with
    | nil =>
      rw [hh] at hfetch
      rw [accountTick_empty hfetch]
      rfl
    | cons a as =>
      rw [hh] at hfetch
      rw [accountTick_cons hfetch, deliverAll_all fun _ _ => rfl]
      rfl
  · intro t
    simp [isAlreadyProcessed]

/-- Claim C10 witness: a stale cursor `(100, 9)` matching nothing in the history
leaves the single transaction at lt 50 — older than the cursor — collected
and redelivered. -/
theorem claim10_exact_match_no_truncation_witness :
    fetchNewTransactions [⟨50, 5⟩] 2 availOk (some ⟨100, 9⟩) none 0 (fetchFuel [⟨50, 5⟩])
      = [⟨50, 5⟩]
    ∧ (accountTick [⟨50, 5⟩] 2 availOk (fun _ => true) ⟨some ⟨100, 9⟩, false⟩).2
      = [⟨50, 5⟩].reverse
    ∧ (∀ t : Tx, isAlreadyProcessed (some ⟨100, 9⟩) t = true ↔ (t.lt = 100 ∧ t.hash = 9)) :=
  claim10_exact_match_no_truncation [⟨50, 5⟩] 2 ⟨100, 9⟩ (by decide) (by decide)
    (by
      intro t ht
      rcases List.mem_singleton.mp ht with rfl
      decide)

/-- Claim C3: with the cursor at the previously newest transaction `c`, every
query eventually succeeding within its retry budget, and the history
strictly decreasing in lt (newest first), one tick delivers exactly the
appended transactions `newTxs`, oldest first — each exactly once, in
strictly increasing lt order — and a further tick on the unchanged history
delivers nothing. -/
theorem claim3_no_loss_exactly_once (newTxs old : List Tx) (c : Tx) (limit : Nat) (avail : Avail)
    (hlim : 0 < limit)
    (hdec : List.Chain' (fun a b => b.lt < a.lt) (newTxs ++ c :: old))
    (hav : ∀ o, ∃ k, k < 10 ∧ avail o k = true) :
    (accountTick (newTxs ++ c :: old) limit avail (fun _ => true) ⟨some (txId c), false⟩).2
        = newTxs.reverse
    ∧ (∀ t ∈ newTxs,
        ((accountTick (newTxs ++ c :: old) limit avail (fun _ => true)
          ⟨some (txId c), false⟩).2.count t) = 1)
    ∧ List.Chain' (fun a b => a.lt < b.lt)
        (accountTick (newTxs ++ c :: old) limit avail (fun _ => true) ⟨some (txId c), false⟩).2
    ∧ accountTick (newTxs ++ c :: old) limit avail (fun _ => true)
        (accountTick (newTxs ++ c :: old) limit avail (fun _ => true) ⟨some (txId c), false⟩).1
      = ((accountTick (newTxs ++ c :: old) limit avail (fun _ => true)
          ⟨some (txId c), false⟩).1, []) := by
  haveI : IsTrans Tx (fun a b => b.lt < a.lt) := ⟨fun _ _ _ hab hbc => lt_trans hbc hab⟩
  have hPW : (newTxs ++ c :: old).Pairwise (fun a b => b.lt < a.lt) :=
    List.chain'_iff_pairwise.mp hdec
  have hids : ((newTxs ++ c :: old).map txId).Nodup := by
    refine List.Pairwise.map txId ?_ hPW
    intro a b hab he
    have : a.lt = b.lt := congrArg Cur.lt he
    omega
  have hPWapp := List.pairwise_append.mp hPW
  have hnomatch : ∀ t ∈ newTxs, isAlreadyProcessed (some (txId c)) t = false := by
    intro t ht
    have hlt : c.lt < t.lt := hPWapp.2.2 t ht c (by simp)
    have hne : t.lt ≠ c.lt := by omega
    simp [isAlreadyProcessed, txId, hne]
  have hfetch : fetchNewTransactions (newTxs ++ c :: old) limit avail (some (txId c)) none 0
      (fetchFuel (newTxs ++ c :: old)) = newTxs := by
    rw [fetch_eq_takeWhile hids hlim hav (fetchFuel (newTxs ++ c :: old)) none
      (newTxs ++ c :: old) rfl le_rfl]
    exact takeWhile_middle hnomatch (matches_self c)
  have hPWnew : newTxs.Pairwise (fun a b => b.lt < a.lt) := hPWapp.1
  have hnodup : newTxs.Nodup := by
    refine hPWnew.imp ?_
    intro a b hab he
    rw [he] at hab
    omega
  cases hnew : newTxs with
  | nil =>
    subst hnew
    have htick := @accountTick_empty _ _ _ (fun _ => true) _ hfetch
    rw [htick]
    exact ⟨rfl, fun t ht => absurd ht (List.not_mem_nil t), by simp, htick⟩
  | cons h0 t0 =>
    subst hnew
    have htick0 := @accountTick_cons _ _ _ (fun _ => true) _ _ _ hfetch
    rw [deliverAll_all (fun _ _ => rfl)] at htick0
    have htick2 : accountTick ((h0 :: t0) ++ c :: old) limit avail (fun _ => true)
        ⟨some (txId c), false⟩ = (⟨some (txId h0), false⟩, (h0 :: t0).reverse) := by
      rw [htick0]
      rfl
    have hfetch2 : fetchNewTransactions ((h0 :: t0) ++ c :: old) limit avail (some (txId h0))
        none 0 (fetchFuel ((h0 :: t0) ++ c :: old)) = [] := by
      rw [fetch_eq_takeWhile hids hlim hav (fetchFuel ((h0 :: t0) ++ c :: old)) none
        ((h0 :: t0) ++ c :: old) rfl le_rfl]
      show (h0 :: (t0 ++ c :: old)).takeWhile
          (fun t => !isAlreadyProcessed (some (txId h0)) t) = []
      simp [List.takeWhile_cons, matches_self h0]
    have htick3 := @accountTick_empty _ _ _ (fun _ => true) _ hfetch2
    refine ⟨?_, ?_, ?_, ?_⟩
    · rw [htick2]
    · intro t ht
      rw [htick2]
      show ((h0 :: t0).reverse).count t = 1
      rw [List.count_reverse]
      exact List.count_eq_one_of_mem hnodup ht
    · rw [htick2]
      show List.Chain' (fun a b => a.lt < b.lt) (h0 :: t0).reverse
      exact (List.pairwise_reverse.mpr hPWnew).chain'
    · rw [htick2]
      exact htick3

/-- Claim C3 witness: one new transaction at lt 400 appended after the cursor
transaction at lt 300 is delivered exactly once and a second tick delivers
nothing. -/
theorem claim3_no_loss_exactly_once_witness :
    (accountTick ([⟨400, 94⟩] ++ ⟨300, 93⟩ :: [⟨200, 92⟩]) 2 availOk (fun _ => true)
        ⟨some (txId ⟨300, 93⟩), false⟩).2 = [⟨400, 94⟩].reverse
    ∧ (∀ t ∈ [(⟨400, 94⟩ : Tx)],
        ((accountTick ([⟨400, 94⟩] ++ ⟨300, 93⟩ :: [⟨200, 92⟩]) 2 availOk (fun _ => true)
          ⟨some (txId ⟨300, 93⟩), false⟩).2.count t) = 1)
    ∧ List.Chain' (fun a b => a.lt < b.lt)
        (accountTick ([⟨400, 94⟩] ++ ⟨300, 93⟩ :: [⟨200, 92⟩]) 2 availOk (fun _ => true)
          ⟨some (txId ⟨300, 93⟩), false⟩).2
    ∧ accountTick ([⟨400, 94⟩] ++ ⟨300, 93⟩ :: [⟨200, 92⟩]) 2 availOk (fun _ => true)
        (accountTick ([⟨400, 94⟩] ++ ⟨300, 93⟩ :: [⟨200, 92⟩]) 2 availOk (fun _ => true)
          ⟨some (txId ⟨300, 93⟩), false⟩).1
      = ((accountTick ([⟨400, 94⟩] ++ ⟨300, 93⟩ :: [⟨200, 92⟩]) 2 availOk (fun _ => true)
          ⟨some (txId ⟨300, 93⟩), false⟩).1, []) :=
  claim3_no_loss_exactly_once [⟨400, 94⟩] [⟨200, 92⟩] ⟨300, 93⟩ 2 availOk (by decide)
    (List.Chain.cons (by decide) (List.Chain.cons (by decide) List.Chain.nil))
    (fun o => ⟨0, by decide, rfl⟩)

end SubEngine
